import Mathlib

/-!
Shallow embedding of `src/main.c` of the bitcoin-tool repository.

The embedding mirrors the C program structure by structure:

* the option and result enumerations become inductive types;
* the mutable `struct BitcoinTool` aggregate becomes the `BitcoinTool`
  structure, threaded explicitly through the functions;
* the fixed 256-byte, calloc-zeroed C buffers are modelled as `List Nat`
  together with `bufRead`, which reproduces the zero padding a `memcpy`
  from a partially written buffer observes;
* the external capabilities (hash.h, ec.h, base58.h) are an abstract
  `Capabilities` record of functions; fallible ones follow the C calling
  convention of returning a result code next to the value they write;
* writes to standard output are collected as explicit return values;
* each invocation of a hash / EC-derivation / codec-encode capability is
  recorded in a `Trace`.

Definitions keep the names of the C functions they embed where Lean
allows it.
-/

set_option maxHeartbeats 1000000
set_option maxRecDepth 8000

namespace BitcoinToolModel

/-- `enum InputType` from src/main.c (INPUT_TYPE_NONE first, as in C). -/
inductive InputType where
  | none
  | address
  | publicKeyRipemd160
  | publicKeySha256
  | publicKey
  | privateKeyWif
  | privateKey
deriving DecidableEq

/-- `enum OutputType` from src/main.c. -/
inductive OutputType where
  | none
  | all
  | address
  | publicKeyRipemd160
  | publicKeySha256
  | publicKey
  | privateKeyWif
  | privateKey
deriving DecidableEq

/-- `enum InputFormat` from src/main.c. -/
inductive InputFormat where
  | none
  | raw
  | hex
  | base58
  | base58check
deriving DecidableEq

/-- `enum OutputFormat` from src/main.c. -/
inductive OutputFormat where
  | none
  | raw
  | hex
  | base58
  | base58check
deriving DecidableEq

/-- `enum PublicKeyCompression` of the options structure in src/main.c. -/
inductive PublicKeyCompression where
  | auto
  | compressed
  | uncompressed
deriving DecidableEq

/-- Modelled from the spec: the compression tag carried by a decoded key
(`BITCOIN_PUBLIC_KEY_COMPRESSED` / `BITCOIN_PUBLIC_KEY_UNCOMPRESSED` of the
missing header ec.h).  The spec (section 3) gives CompressionMode exactly the
two resolved values Compressed and Uncompressed once Auto is resolved. -/
inductive KeyCompression where
  | compressed
  | uncompressed
deriving DecidableEq

/-- Modelled from the spec: `BitcoinResult` of the missing header result.h.
Constructor names follow the identifiers used in src/main.c
(`BITCOIN_SUCCESS`, `BITCOIN_ERROR_INVALID_FORMAT`,
`BITCOIN_ERROR_IMPOSSIBLE_CONVERSION`,
`BITCOIN_ERROR_PRIVATE_KEY_INVALID_FORMAT`,
`BITCOIN_ERROR_PUBLIC_KEY_INVALID_FORMAT`).  `acquisitionFailure` stands for
the literal `return 0` statements of `Bitcoin_ParseInput` on unreadable or
oversized input; the spec (sections 5 and 6) treats these as validation
errors that abort the run, so they are modelled as a distinct non-success
value. -/
inductive BitcoinResult where
  | success
  | invalidFormat
  | impossibleConversion
  | privateKeyInvalidFormat
  | publicKeyInvalidFormat
  | acquisitionFailure
deriving DecidableEq

/-- One invocation of an external hash / EC-derive / codec-encode
capability (spec section 6).  Codec decoding happens during input parsing
and is not part of the conversion or dispatch trace. -/
inductive CapCall where
  | ecDerive
  | sha256
  | ripemd160
  | encode
deriving DecidableEq

abbrev Trace := List CapCall

/- Sizes from ec.h / hash.h, as listed explicitly by the spec, section 4.2:
PrivateKey=32; PrivateKeyWIF=33 (uncompressed) / 34 (compressed);
PublicKey=65 (uncompressed) / 33 (compressed); SHA256=32; RIPEMD160=20;
Address=21 (= 1-byte version + 20-byte hash). -/

def BITCOIN_PRIVATE_KEY_SIZE : Nat := 32
def BITCOIN_PRIVATE_KEY_WIF_UNCOMPRESSED_SIZE : Nat := 33
def BITCOIN_PRIVATE_KEY_WIF_COMPRESSED_SIZE : Nat := 34
def BITCOIN_PUBLIC_KEY_UNCOMPRESSED_SIZE : Nat := 65
def BITCOIN_PUBLIC_KEY_COMPRESSED_SIZE : Nat := 33
def BITCOIN_SHA256_SIZE : Nat := 32
def BITCOIN_RIPEMD160_SIZE : Nat := 20
def BITCOIN_ADDRESS_SIZE : Nat := 21
def BITCOIN_ADDRESS_VERSION_SIZE : Nat := 1
def BITCOIN_PRIVATE_KEY_WIF_VERSION_SIZE : Nat := 1
def BITCOIN_PRIVATE_KEY_WIF_COMPRESSION_FLAG_SIZE : Nat := 1

/-- Address version byte 0x00, spec section 4.1 (prepend version byte 0x00). -/
def BITCOIN_ADDRESS_PREFIX_BITCOIN_PUBKEY_HASH : Nat := 0

/-- Modelled from the spec: the WIF version byte of the missing header
(the spec, section 3, gives the WIF raw layout as 1-byte version +
32-byte key + optional 1-byte compression flag; the standard Bitcoin
value 0x80 is used, no analysed property depends on the numeric value). -/
def BITCOIN_ADDRESS_PREFIX_BITCOIN_PRIVATE_KEY : Nat := 128

/-- Modelled from the spec: WIF compression flag byte (value 0x01; no
analysed property depends on the numeric value). -/
def BITCOIN_PRIVATE_KEY_WIF_COMPRESSION_FLAG_COMPRESSED : Nat := 1

/-- Reading `n` bytes out of a fixed-capacity, zero-initialised C buffer
whose meaningful content is `xs`: the `memcpy` sees `xs` padded with zero
bytes up to `n`. -/
def bufRead (xs : List Nat) (n : Nat) : List Nat :=
  xs.take n ++ List.replicate (n - xs.length) 0

/-- `struct BitcoinToolOptions` from src/main.c.  The `--input` string and
the `--input-file` contents are carried as byte lists. -/
structure BitcoinToolOptions where
  input : Option (List Nat)
  inputFile : Option (List Nat)
  inputType : InputType
  inputFormat : InputFormat
  outputType : OutputType
  outputFormat : OutputFormat
  publicKeyCompression : PublicKeyCompression

/-- The mutable part of `struct BitcoinTool` from src/main.c: the
per-representation buffers, the decoded-input buffers, the staging buffers
for output, and the six "set" flags. -/
structure BitcoinTool where
  privateKey : List Nat
  privateKeyCompression : KeyCompression
  publicKey : List Nat
  publicKeySha256 : List Nat
  publicKeyRipemd160 : List Nat
  address : List Nat
  input : List Nat
  inputSize : Nat
  inputRaw : List Nat
  inputRawSize : Nat
  outputRaw : List Nat
  outputRawSize : Nat
  outputText : String
  outputTextSize : Nat
  privateKeySet : Bool
  privateKeyWifSet : Bool
  publicKeySet : Bool
  publicKeySha256Set : Bool
  publicKeyRipemd160Set : Bool
  addressSet : Bool

/-- The state `BitcoinTool_create` produces: `calloc` zeroes every field.
Modelled from the spec for the compression tag: the zero value of the
compression enumeration lives in the missing header ec.h, and the spec
(section 3) says Auto "defaults to Uncompressed" when no WIF flag is
decoded, so the initial tag is Uncompressed.  The zero bytes of the
character buffers are represented by empty lists (`bufRead` reproduces the
zero padding where a fixed-size `memcpy` would observe it). -/
def initialBitcoinTool : BitcoinTool :=
  { privateKey := []
  , privateKeyCompression := KeyCompression.uncompressed
  , publicKey := []
  , publicKeySha256 := []
  , publicKeyRipemd160 := []
  , address := []
  , input := []
  , inputSize := 0
  , inputRaw := []
  , inputRawSize := 0
  , outputRaw := []
  , outputRawSize := 0
  , outputText := ""
  , outputTextSize := 0
  , privateKeySet := false
  , privateKeyWifSet := false
  , publicKeySet := false
  , publicKeySha256Set := false
  , publicKeyRipemd160Set := false
  , addressSet := false }

/-- The external capabilities consumed by the core (spec section 6):
hashes (hash.h), EC public-key derivation (ec.h) and the codec
(base58.h / utility.h).  The hash functions are total, matching their
void-returning C interfaces; derivation and the codec return a
`BitcoinResult` code next to the value they write into the output buffer,
as the C functions do (the value is meaningful only on success). -/
structure Capabilities where
  sha256 : List Nat → List Nat
  ripemd160 : List Nat → List Nat
  makePublicKey : List Nat → KeyCompression → BitcoinResult × List Nat
  decodeHex : List Nat → BitcoinResult × List Nat
  decodeBase58 : List Nat → BitcoinResult × List Nat
  decodeBase58Check : List Nat → BitcoinResult × List Nat
  encodeHex : List Nat → BitcoinResult × String
  encodeBase58 : List Nat → BitcoinResult × String
  encodeBase58Check : List Nat → BitcoinResult × String

/-- Modelled from the spec: `BitcoinPublicKey_GetSize` of the missing
header ec.h.  The spec (section 3) says a public key is "self-describing
by length" (33 compressed, 65 uncompressed), so the size is the length of
the stored bytes. -/
def BitcoinPublicKey_GetSize (publicKey : List Nat) : Nat :=
  publicKey.length

/-- `Bitcoin_MakeAddressFromRIPEMD160`: version byte 0x00 followed by the
20 hash bytes. -/
def Bitcoin_MakeAddressFromRIPEMD160 (hash : List Nat) : List Nat :=
  BITCOIN_ADDRESS_PREFIX_BITCOIN_PUBKEY_HASH :: bufRead hash BITCOIN_RIPEMD160_SIZE

/-- `Bitcoin_MakeRIPEMD160FromAddress`: strip the version byte. -/
def Bitcoin_MakeRIPEMD160FromAddress (address : List Nat) : List Nat :=
  bufRead (address.drop BITCOIN_ADDRESS_VERSION_SIZE) BITCOIN_RIPEMD160_SIZE

/- The conversion engine `Bitcoin_ConvertInputToOutput`.  The C function is
a switch on the input type whose cases fall through: entering at the case
of the input type executes that block and then every following block.  Each
block is modelled as a function returning either an early exit
(`Sum.inl`: the C `return` statements) or the state to continue with
(`Sum.inr`: the C `break` out of the inner switch). -/

abbrev ConvEarly := BitcoinResult × BitcoinTool × Trace
abbrev ConvCont := BitcoinTool × Trace

/-- Sequencing of fall-through blocks: an early `return` skips the rest. -/
def convSeq (x : Sum ConvEarly ConvCont)
    (f : BitcoinTool → Trace → Sum ConvEarly ConvCont) : Sum ConvEarly ConvCont :=
  match x with
  | Sum.inl e => Sum.inl e
  | Sum.inr (s, tr) => f s tr

/-- Reaching the end of `Bitcoin_ConvertInputToOutput` returns success. -/
def convFinish (x : Sum ConvEarly ConvCont) : BitcoinResult × BitcoinTool × Trace :=
  match x with
  | Sum.inl e => e
  | Sum.inr (s, tr) => (BitcoinResult.success, s, tr)

/-- Case `INPUT_TYPE_PRIVATE_KEY` of the conversion switch.
`Bitcoin_MakePrivateKeyWIFFromPrivateKey` is a stub in src/main.c that
always returns `BITCOIN_SUCCESS`, so only the flag is set. -/
def convBlockPrivateKey (out : OutputType) (s : BitcoinTool) (tr : Trace) :
    Sum ConvEarly ConvCont :=
  match out with
  | OutputType.all | OutputType.address | OutputType.publicKeyRipemd160
  | OutputType.publicKeySha256 | OutputType.publicKey | OutputType.privateKeyWif =>
      Sum.inr ({ s with privateKeyWifSet := true }, tr)
  | OutputType.privateKey => Sum.inl (BitcoinResult.success, s, tr)
  | OutputType.none => Sum.inr (s, tr)

/-- First inner switch of case `INPUT_TYPE_PRIVATE_KEY_WIF`.
`Bitcoin_MakePrivateKeyFromPrivateKeyWIF` is a stub in src/main.c that
always returns `BITCOIN_SUCCESS`, so only the flag is set. -/
def convBlockPrivateKeyWifA (out : OutputType) (s : BitcoinTool) (tr : Trace) :
    Sum ConvEarly ConvCont :=
  match out with
  | OutputType.all | OutputType.address | OutputType.publicKeyRipemd160
  | OutputType.publicKeySha256 | OutputType.publicKey | OutputType.privateKey =>
      Sum.inr ({ s with privateKeySet := true }, tr)
  | OutputType.privateKeyWif => Sum.inl (BitcoinResult.success, s, tr)
  | OutputType.none => Sum.inr (s, tr)

/-- Second inner switch of case `INPUT_TYPE_PRIVATE_KEY_WIF`:
`Bitcoin_MakePublicKeyFromPrivateKey` (external EC derivation, fallible). -/
def convBlockPrivateKeyWifB (caps : Capabilities) (out : OutputType)
    (s : BitcoinTool) (tr : Trace) : Sum ConvEarly ConvCont :=
  match out with
  | OutputType.all | OutputType.address | OutputType.publicKeyRipemd160
  | OutputType.publicKeySha256 | OutputType.publicKey =>
      let d := caps.makePublicKey s.privateKey s.privateKeyCompression
      if d.1 = BitcoinResult.success then
        Sum.inr ({ s with publicKey := d.2, publicKeySet := true },
          tr ++ [CapCall.ecDerive])
      else Sum.inl (d.1, s, tr ++ [CapCall.ecDerive])
  | OutputType.privateKeyWif | OutputType.privateKey =>
      Sum.inl (BitcoinResult.success, s, tr)
  | OutputType.none => Sum.inr (s, tr)

/-- Case `INPUT_TYPE_PUBLIC_KEY`: `Bitcoin_MakeSHA256FromPublicKey`, or the
impossible conversions towards a private key. -/
def convBlockPublicKey (caps : Capabilities) (out : OutputType)
    (s : BitcoinTool) (tr : Trace) : Sum ConvEarly ConvCont :=
  match out with
  | OutputType.all | OutputType.address | OutputType.publicKeyRipemd160
  | OutputType.publicKeySha256 =>
      let h := caps.sha256 (bufRead s.publicKey (BitcoinPublicKey_GetSize s.publicKey))
      Sum.inr ({ s with publicKeySha256 := h, publicKeySha256Set := true },
        tr ++ [CapCall.sha256])
  | OutputType.publicKey => Sum.inl (BitcoinResult.success, s, tr)
  | OutputType.privateKeyWif | OutputType.privateKey =>
      Sum.inl (BitcoinResult.impossibleConversion, s, tr)
  | OutputType.none => Sum.inr (s, tr)

/-- Case `INPUT_TYPE_PUBLIC_KEY_SHA256`: `Bitcoin_MakeRIPEMD160FromSHA256`. -/
def convBlockSha256 (caps : Capabilities) (out : OutputType)
    (s : BitcoinTool) (tr : Trace) : Sum ConvEarly ConvCont :=
  match out with
  | OutputType.all | OutputType.address | OutputType.publicKeyRipemd160 =>
      let h := caps.ripemd160 (bufRead s.publicKeySha256 BITCOIN_SHA256_SIZE)
      Sum.inr ({ s with publicKeyRipemd160 := h, publicKeyRipemd160Set := true },
        tr ++ [CapCall.ripemd160])
  | OutputType.publicKeySha256 => Sum.inl (BitcoinResult.success, s, tr)
  | OutputType.publicKey | OutputType.privateKeyWif | OutputType.privateKey =>
      Sum.inl (BitcoinResult.impossibleConversion, s, tr)
  | OutputType.none => Sum.inr (s, tr)

/-- Case `INPUT_TYPE_PUBLIC_KEY_RIPEMD160`: `Bitcoin_MakeAddressFromRIPEMD160`
(pure, no capability call). -/
def convBlockRipemd160 (out : OutputType) (s : BitcoinTool) (tr : Trace) :
    Sum ConvEarly ConvCont :=
  match out with
  | OutputType.all | OutputType.address =>
      Sum.inr ({ s with
        address := Bitcoin_MakeAddressFromRIPEMD160 s.publicKeyRipemd160,
        addressSet := true }, tr)
  | OutputType.publicKeyRipemd160 => Sum.inl (BitcoinResult.success, s, tr)
  | OutputType.publicKeySha256 | OutputType.publicKey
  | OutputType.privateKeyWif | OutputType.privateKey =>
      Sum.inl (BitcoinResult.impossibleConversion, s, tr)
  | OutputType.none => Sum.inr (s, tr)

/-- Case `INPUT_TYPE_ADDRESS`: identity, or the single reverse edge
`Bitcoin_MakeRIPEMD160FromAddress` (pure, with an explicit C `return`). -/
def convBlockAddress (out : OutputType) (s : BitcoinTool) (tr : Trace) :
    Sum ConvEarly ConvCont :=
  match out with
  | OutputType.all | OutputType.address => Sum.inl (BitcoinResult.success, s, tr)
  | OutputType.publicKeyRipemd160 =>
      Sum.inl (BitcoinResult.success,
        { s with
          publicKeyRipemd160 := Bitcoin_MakeRIPEMD160FromAddress s.address,
          publicKeyRipemd160Set := true }, tr)
  | OutputType.publicKeySha256 | OutputType.publicKey
  | OutputType.privateKeyWif | OutputType.privateKey =>
      Sum.inl (BitcoinResult.impossibleConversion, s, tr)
  | OutputType.none => Sum.inr (s, tr)

/-- `Bitcoin_ConvertInputToOutput` from src/main.c: enter the fall-through
chain at the case of the declared input type.  The returned trace records
the capability invocations performed. -/
def Bitcoin_ConvertInputToOutput (caps : Capabilities) (opts : BitcoinToolOptions)
    (s : BitcoinTool) : BitcoinResult × BitcoinTool × Trace :=
  let out := opts.outputType
  match opts.inputType with
  | InputType.privateKey =>
      convFinish (convSeq (convSeq (convSeq (convSeq (convSeq (convSeq
        (convBlockPrivateKey out s [])
        (convBlockPrivateKeyWifA out))
        (convBlockPrivateKeyWifB caps out))
        (convBlockPublicKey caps out))
        (convBlockSha256 caps out))
        (convBlockRipemd160 out))
        (convBlockAddress out))
  | InputType.privateKeyWif =>
      convFinish (convSeq (convSeq (convSeq (convSeq (convSeq
        (convBlockPrivateKeyWifA out s [])
        (convBlockPrivateKeyWifB caps out))
        (convBlockPublicKey caps out))
        (convBlockSha256 caps out))
        (convBlockRipemd160 out))
        (convBlockAddress out))
  | InputType.publicKey =>
      convFinish (convSeq (convSeq (convSeq
        (convBlockPublicKey caps out s [])
        (convBlockSha256 caps out))
        (convBlockRipemd160 out))
        (convBlockAddress out))
  | InputType.publicKeySha256 =>
      convFinish (convSeq (convSeq
        (convBlockSha256 caps out s [])
        (convBlockRipemd160 out))
        (convBlockAddress out))
  | InputType.publicKeyRipemd160 =>
      convFinish (convSeq
        (convBlockRipemd160 out s [])
        (convBlockAddress out))
  | InputType.address =>
      convFinish (convBlockAddress out s [])
  | InputType.none => (BitcoinResult.success, s, [])

/-- Input acquisition of `Bitcoin_ParseInput`: read from the file
(`fread` of at most `sizeof(input) - 1 = 255` bytes — larger files are
silently cut short) or take the `--input` value (rejected before copying
when its length does not fit the 256-byte buffer; the C code stores the
length before the check). -/
def acquireInput (opts : BitcoinToolOptions) (s : BitcoinTool) :
    BitcoinResult × BitcoinTool :=
  match opts.inputFile with
  | some fileBytes =>
      let bytesRead := fileBytes.take 255
      if bytesRead.length = 0 then (BitcoinResult.acquisitionFailure, s)
      else (BitcoinResult.success,
        { s with input := bytesRead, inputSize := bytesRead.length })
  | none =>
      match opts.input with
      | some bytes =>
          let sz := bytes.length
          if 256 ≤ sz then (BitcoinResult.acquisitionFailure, { s with inputSize := sz })
          else (BitcoinResult.success, { s with input := bytes, inputSize := sz })
      | none => (BitcoinResult.success, s)

/-- Format-decoding step of `Bitcoin_ParseInput`: raw input is copied,
hex / base58 / base58check input goes through the codec capability; a
codec failure is `BITCOIN_ERROR_INVALID_FORMAT`. -/
def decodeInput (caps : Capabilities) (fmt : InputFormat) (s : BitcoinTool) :
    BitcoinResult × BitcoinTool :=
  match fmt with
  | InputFormat.raw =>
      (BitcoinResult.success,
        { s with inputRaw := bufRead s.input s.inputSize, inputRawSize := s.inputSize })
  | InputFormat.hex =>
      let d := caps.decodeHex s.input
      if d.1 = BitcoinResult.success then
        (BitcoinResult.success, { s with inputRaw := d.2, inputRawSize := d.2.length })
      else (BitcoinResult.invalidFormat, s)
  | InputFormat.base58 =>
      let d := caps.decodeBase58 s.input
      if d.1 = BitcoinResult.success then
        (BitcoinResult.success, { s with inputRaw := d.2, inputRawSize := d.2.length })
      else (BitcoinResult.invalidFormat, s)
  | InputFormat.base58check =>
      let d := caps.decodeBase58Check s.input
      if d.1 = BitcoinResult.success then
        (BitcoinResult.success, { s with inputRaw := d.2, inputRawSize := d.2.length })
      else (BitcoinResult.invalidFormat, s)
  | InputFormat.none => (BitcoinResult.invalidFormat, s)

/-- `Bitcoin_ParseInput` from src/main.c: set `output_text_size` to the
buffer capacity, acquire the input bytes, reject empty input, then decode
the declared format into `input_raw`. -/
def Bitcoin_ParseInput (caps : Capabilities) (opts : BitcoinToolOptions)
    (s0 : BitcoinTool) : BitcoinResult × BitcoinTool :=
  let s := { s0 with outputTextSize := 256 }
  let a := acquireInput opts s
  if a.1 = BitcoinResult.success then
    if a.2.inputSize = 0 then (BitcoinResult.acquisitionFailure, a.2)
    else decodeInput caps opts.inputFormat a.2
  else a

/-- `Bitcoin_CheckInputSize` from src/main.c: validate the decoded raw
length against the declared input type and import the bytes into the
per-type buffer.  The third component records whether the error message
carried the extra WIF hint (the `extra_message` of the private-key case).
The C code for the SHA256 input type sets only the flag and copies no
bytes; this is mirrored faithfully. -/
def Bitcoin_CheckInputSize (opts : BitcoinToolOptions) (s : BitcoinTool) :
    BitcoinResult × BitcoinTool × Bool :=
  let n := s.inputRawSize
  match opts.inputType with
  | InputType.privateKey =>
      if n = BITCOIN_PRIVATE_KEY_SIZE then
        (BitcoinResult.success,
          { s with
            privateKey := bufRead s.inputRaw BITCOIN_PRIVATE_KEY_SIZE,
            privateKeySet := true }, false)
      else
        (BitcoinResult.privateKeyInvalidFormat, s,
          n == BITCOIN_PRIVATE_KEY_WIF_UNCOMPRESSED_SIZE
            || n == BITCOIN_PRIVATE_KEY_WIF_COMPRESSED_SIZE)
  | InputType.privateKeyWif =>
      if n = BITCOIN_PRIVATE_KEY_WIF_UNCOMPRESSED_SIZE
          ∨ n = BITCOIN_PRIVATE_KEY_WIF_COMPRESSED_SIZE then
        let comp := if n = BITCOIN_PRIVATE_KEY_WIF_UNCOMPRESSED_SIZE
          then KeyCompression.uncompressed else KeyCompression.compressed
        (BitcoinResult.success,
          { s with
            privateKeyCompression := comp,
            privateKey := bufRead (s.inputRaw.drop BITCOIN_PRIVATE_KEY_WIF_VERSION_SIZE)
              BITCOIN_PRIVATE_KEY_SIZE,
            privateKeyWifSet := true }, false)
      else (BitcoinResult.privateKeyInvalidFormat, s, false)
  | InputType.publicKey =>
      if n = BITCOIN_PUBLIC_KEY_UNCOMPRESSED_SIZE
          ∨ n = BITCOIN_PUBLIC_KEY_COMPRESSED_SIZE then
        (BitcoinResult.success,
          { s with publicKey := bufRead s.inputRaw n, publicKeySet := true }, false)
      else (BitcoinResult.publicKeyInvalidFormat, s, false)
  | InputType.publicKeySha256 =>
      if n = BITCOIN_SHA256_SIZE then
        (BitcoinResult.success, { s with publicKeySha256Set := true }, false)
      else (BitcoinResult.invalidFormat, s, false)
  | InputType.publicKeyRipemd160 =>
      if n = BITCOIN_RIPEMD160_SIZE then
        (BitcoinResult.success,
          { s with
            publicKeyRipemd160 := bufRead s.inputRaw BITCOIN_RIPEMD160_SIZE,
            publicKeyRipemd160Set := true }, false)
      else (BitcoinResult.invalidFormat, s, false)
  | InputType.address =>
      if n = BITCOIN_ADDRESS_SIZE then
        (BitcoinResult.success,
          { s with
            address := bufRead s.inputRaw BITCOIN_ADDRESS_SIZE,
            addressSet := true }, false)
      else (BitcoinResult.invalidFormat, s, false)
  | InputType.none => (BitcoinResult.invalidFormat, s, false)

/-- The compression-override switch at the top of `BitcoinTool_run`:
an explicit `--public-key-compression` value overwrites the tag carried
by the private key; `auto` keeps it. -/
def applyCompressionOverride (opts : BitcoinToolOptions) (s : BitcoinTool) :
    BitcoinTool :=
  match opts.publicKeyCompression with
  | PublicKeyCompression.compressed =>
      { s with privateKeyCompression := KeyCompression.compressed }
  | PublicKeyCompression.uncompressed =>
      { s with privateKeyCompression := KeyCompression.uncompressed }
  | PublicKeyCompression.auto => s

/-- First half of `Bitcoin_WriteOutput`: stage the raw bytes of the
requested output type into `output_raw`.  `none` corresponds to the
"unspecified output type" default of the C switch (`OUTPUT_TYPE_ALL` is
dispatched before this point).  The WIF case prepends the version byte and
appends the compression flag byte exactly when the key is compressed; the
unreachable C `default` of its inner switch has no counterpart because the
resolved compression tag has exactly two values. -/
def computeOutputRaw (t : OutputType) (s : BitcoinTool) : Option (List Nat) :=
  match t with
  | OutputType.address => some (bufRead s.address BITCOIN_ADDRESS_SIZE)
  | OutputType.publicKeyRipemd160 =>
      some (bufRead s.publicKeyRipemd160 BITCOIN_RIPEMD160_SIZE)
  | OutputType.publicKeySha256 => some (bufRead s.publicKeySha256 BITCOIN_SHA256_SIZE)
  | OutputType.publicKey => some (bufRead s.publicKey (BitcoinPublicKey_GetSize s.publicKey))
  | OutputType.privateKeyWif =>
      some (BITCOIN_ADDRESS_PREFIX_BITCOIN_PRIVATE_KEY ::
        bufRead s.privateKey BITCOIN_PRIVATE_KEY_SIZE ++
        (match s.privateKeyCompression with
          | KeyCompression.compressed => [BITCOIN_PRIVATE_KEY_WIF_COMPRESSION_FLAG_COMPRESSED]
          | KeyCompression.uncompressed => []))
  | OutputType.privateKey => some (bufRead s.privateKey BITCOIN_PRIVATE_KEY_SIZE)
  | OutputType.all | OutputType.none => none

/-- Second half of `Bitcoin_WriteOutput`: translate `output_raw` into
`output_text`.  Raw output performs only the capacity check and leaves the
text buffer untouched; the three text formats call the codec capability
(recorded in the trace).  `none` is the "unspecified output format"
default. -/
def encodeOutput (caps : Capabilities) (f : OutputFormat) (raw : List Nat) :
    BitcoinResult × Option String × Trace :=
  match f with
  | OutputFormat.raw =>
      if 256 < raw.length then (BitcoinResult.invalidFormat, none, [])
      else (BitcoinResult.success, none, [])
  | OutputFormat.hex =>
      let r := caps.encodeHex raw
      (r.1, some r.2, [CapCall.encode])
  | OutputFormat.base58 =>
      let r := caps.encodeBase58 raw
      (r.1, some r.2, [CapCall.encode])
  | OutputFormat.base58check =>
      let r := caps.encodeBase58Check raw
      (r.1, some r.2, [CapCall.encode])
  | OutputFormat.none => (BitcoinResult.invalidFormat, none, [])

/-- `Bitcoin_WriteOutput` of src/main.c for a concrete (non-"all") output
type: stage the raw bytes, encode them, and on success write
`output_text` (followed by a newline exactly when standard input is a
terminal — the `isatty(fileno(stdin))` check) to standard output, returned
here as the String component.  Failures return before anything is
written.  The C comparison `self->output_text == 0` of an array against
the null pointer is constant false and has no counterpart.  For raw output
the C code never copies `output_raw` into `output_text`, so the stale text
buffer is written; the zero bytes of the untouched buffer are elided. -/
def Bitcoin_WriteOutputSingle (caps : Capabilities) (isTty : Bool)
    (t : OutputType) (f : OutputFormat) (s : BitcoinTool) :
    BitcoinResult × BitcoinTool × String × Trace :=
  match computeOutputRaw t s with
  | none => (BitcoinResult.invalidFormat, s, "", [])
  | some raw =>
    let s1 := { s with outputRaw := raw, outputRawSize := raw.length }
    let e := encodeOutput caps f raw
    let s2 := match e.2.1 with
      | some text => { s1 with outputText := text, outputTextSize := text.length }
      | none => s1
    if e.1 = BitcoinResult.success then
      (BitcoinResult.success, s2,
        s2.outputText.take s2.outputTextSize ++ (if isTty then "\n" else ""), e.2.2)
    else (e.1, s2, "", e.2.2)

/-- The format table of `Bitcoin_WriteAllOutput`, in array order:
hex, base58, base58check (raw is absent). -/
def allOutputFormats : List (OutputFormat × String) :=
  [(OutputFormat.hex, "hex"), (OutputFormat.base58, "base58"),
   (OutputFormat.base58check, "base58check")]

/-- The type table of `Bitcoin_WriteAllOutput`, in array order. -/
def allOutputTypes : List (OutputType × String) :=
  [(OutputType.address, "address"),
   (OutputType.publicKeyRipemd160, "public-key-ripemd160"),
   (OutputType.publicKeySha256, "public-key-sha256"),
   (OutputType.publicKey, "public-key"),
   (OutputType.privateKeyWif, "private-key-wif"),
   (OutputType.privateKey, "private-key")]

/-- The set-flag guard of the emission loop in `Bitcoin_WriteAllOutput`. -/
def typeIsSet (s : BitcoinTool) (t : OutputType) : Bool :=
  match t with
  | OutputType.address => s.addressSet
  | OutputType.publicKeyRipemd160 => s.publicKeyRipemd160Set
  | OutputType.publicKeySha256 => s.publicKeySha256Set
  | OutputType.publicKey => s.publicKeySet
  | OutputType.privateKeyWif => s.privateKeyWifSet
  | OutputType.privateKey => s.privateKeySet
  | OutputType.all | OutputType.none => false

/-- One iteration of the emission loop in `Bitcoin_WriteAllOutput`: when
the type is set, print the `"<type>.<format>:"` tag and call
`Bitcoin_WriteOutput`.  One list element collects the bytes one iteration
writes to standard output (tag plus whatever the write produced).  The
return value of the inner write is discarded, exactly as in the C code. -/
def writeAllStep (caps : Capabilities) (isTty : Bool) (t : OutputType)
    (tname : String) (acc : BitcoinTool × List String × Trace)
    (p : OutputFormat × String) : BitcoinTool × List String × Trace :=
  if typeIsSet acc.1 t then
    let w := Bitcoin_WriteOutputSingle caps isTty t p.1 acc.1
    (w.2.1, acc.2.1 ++ [tname ++ "." ++ p.2 ++ ":" ++ w.2.2.1], acc.2.2 ++ w.2.2.2)
  else acc

/-- Inner loop of `Bitcoin_WriteAllOutput` for one output type: one
`writeAllStep` per entry of the format table. -/
def writeAllFormats (caps : Capabilities) (isTty : Bool) (t : OutputType)
    (tname : String) (acc : BitcoinTool × List String × Trace) :
    BitcoinTool × List String × Trace :=
  allOutputFormats.foldl (writeAllStep caps isTty t tname) acc

/-- `Bitcoin_WriteAllOutput` from src/main.c: iterate the type table
crossed with the format table, emitting every currently-set type, and
return `BITCOIN_SUCCESS` unconditionally. -/
def Bitcoin_WriteAllOutput (caps : Capabilities) (isTty : Bool)
    (s : BitcoinTool) : BitcoinResult × BitcoinTool × List String × Trace :=
  let r := allOutputTypes.foldl (fun acc p => writeAllFormats caps isTty p.1 p.2 acc)
    (s, [], [])
  (BitcoinResult.success, r.1, r.2.1, r.2.2)

/-- `Bitcoin_WriteOutput` dispatch: the "all" request fans out through
`Bitcoin_WriteAllOutput` (its standard-output chunks joined into the byte
stream), anything else is a single write. -/
def Bitcoin_WriteOutput (caps : Capabilities) (isTty : Bool) (t : OutputType)
    (f : OutputFormat) (s : BitcoinTool) : BitcoinResult × BitcoinTool × String × Trace :=
  if t = OutputType.all then
    let w := Bitcoin_WriteAllOutput caps isTty s
    (w.1, w.2.1, String.join w.2.2.1, w.2.2.2)
  else Bitcoin_WriteOutputSingle caps isTty t f s

/-- `BitcoinTool_run` from src/main.c: parse, validate, apply the
compression override, convert, write.  Returns the success flag, the bytes
written to standard output, and the capability trace. -/
def BitcoinTool_run (caps : Capabilities) (isTty : Bool)
    (opts : BitcoinToolOptions) : Bool × String × Trace :=
  let p := Bitcoin_ParseInput caps opts initialBitcoinTool
  if p.1 = BitcoinResult.success then
    let c := Bitcoin_CheckInputSize opts p.2
    if c.1 = BitcoinResult.success then
      let s3 := applyCompressionOverride opts c.2.1
      let cv := Bitcoin_ConvertInputToOutput caps opts s3
      if cv.1 = BitcoinResult.success then
        let w := Bitcoin_WriteOutput caps isTty opts.outputType opts.outputFormat cv.2.1
        if w.1 = BitcoinResult.success then (true, w.2.2.1, cv.2.2 ++ w.2.2.2)
        else (false, w.2.2.1, cv.2.2 ++ w.2.2.2)
      else (false, "", cv.2.2)
    else (false, "", [])
  else (false, "", [])

/-- `main` from src/main.c: exit code 0 when the run succeeds, 1
otherwise (`EXIT_SUCCESS` / `EXIT_FAILURE`). -/
def bitcoinToolMain (caps : Capabilities) (isTty : Bool)
    (opts : BitcoinToolOptions) : Nat :=
  if (BitcoinTool_run caps isTty opts).1 then 0 else 1

/-- Concrete capability instantiation used by the closed witness and
counterexample theorems: structurally shaped stand-ins for the external
hash, derivation and codec implementations. -/
def demoCaps : Capabilities :=
  { sha256 := fun _ => List.replicate 32 7
  , ripemd160 := fun _ => List.replicate 20 9
  , makePublicKey := fun k _ =>
      (BitcoinResult.success, 4 :: bufRead k 32 ++ List.replicate 32 5)
  , decodeHex := fun b => (BitcoinResult.success, b)
  , decodeBase58 := fun b => (BitcoinResult.success, b)
  , decodeBase58Check := fun b => (BitcoinResult.success, b)
  , encodeHex := fun _ => (BitcoinResult.success, "xx")
  , encodeBase58 := fun _ => (BitcoinResult.success, "yy")
  , encodeBase58Check := fun _ => (BitcoinResult.success, "zz") }

/-- Capabilities whose base58 encoder fails, for exercising the encode
failure paths of the dispatcher. -/
def failingBase58Caps : Capabilities :=
  { demoCaps with encodeBase58 := fun _ => (BitcoinResult.invalidFormat, "") }

/-! Helper predicates and lemmas shared by the claim theorems. -/

/-- Two states agree on the six representation "set" flags. -/
def sameFlags (a b : BitcoinTool) : Prop :=
  a.privateKeySet = b.privateKeySet ∧ a.privateKeyWifSet = b.privateKeyWifSet ∧
  a.publicKeySet = b.publicKeySet ∧ a.publicKeySha256Set = b.publicKeySha256Set ∧
  a.publicKeyRipemd160Set = b.publicKeyRipemd160Set ∧ a.addressSet = b.addressSet

/-- Two states agree on the six buffers the output stage reads. -/
def sameSource (a b : BitcoinTool) : Prop :=
  a.privateKey = b.privateKey ∧ a.privateKeyCompression = b.privateKeyCompression ∧
  a.publicKey = b.publicKey ∧ a.publicKeySha256 = b.publicKeySha256 ∧
  a.publicKeyRipemd160 = b.publicKeyRipemd160 ∧ a.address = b.address

/-- All six representation "set" flags are raised. -/
def allFlagsSet (s : BitcoinTool) : Prop :=
  s.privateKeySet = true ∧ s.privateKeyWifSet = true ∧ s.publicKeySet = true ∧
  s.publicKeySha256Set = true ∧ s.publicKeyRipemd160Set = true ∧ s.addressSet = true

theorem sameFlags_refl (a : BitcoinTool) : sameFlags a a :=
  ⟨rfl, rfl, rfl, rfl, rfl, rfl⟩

theorem sameSource_refl (a : BitcoinTool) : sameSource a a :=
  ⟨rfl, rfl, rfl, rfl, rfl, rfl⟩

theorem string_append_empty (a : String) : a ++ "" = a := by
  cases a with
  | mk d => show String.mk (d ++ []) = String.mk d
            rw [List.append_nil]

/-- A single write touches only the output staging buffers: the flags and
the source buffers survive unchanged. -/
theorem writeOutputSingle_preserves (caps : Capabilities) (isTty : Bool)
    (t : OutputType) (f : OutputFormat) (s : BitcoinTool) :
    sameFlags (Bitcoin_WriteOutputSingle caps isTty t f s).2.1 s ∧
    sameSource (Bitcoin_WriteOutputSingle caps isTty t f s).2.1 s := by
  unfold Bitcoin_WriteOutputSingle
  cases hc : computeOutputRaw t s with
  | none => exact ⟨sameFlags_refl s, sameSource_refl s⟩
  | some raw =>
    cases ht : (encodeOutput caps f raw).2.1 with
    | none =>
      by_cases hr : (encodeOutput caps f raw).1 = BitcoinResult.success <;>
        simp [ht, hr, sameFlags, sameSource]
    | some text =>
      by_cases hr : (encodeOutput caps f raw).1 = BitcoinResult.success <;>
        simp [ht, hr, sameFlags, sameSource]

/-- The staged raw output bytes depend only on the source buffers. -/
theorem computeOutputRaw_congr (t : OutputType) (s1 s2 : BitcoinTool)
    (h : sameSource s1 s2) : computeOutputRaw t s1 = computeOutputRaw t s2 := by
  obtain ⟨h1, h2, h3, h4, h5, h6⟩ := h
  cases t <;> simp [computeOutputRaw, BitcoinPublicKey_GetSize, h1, h2, h3, h4, h5, h6]

/-- The emission guard depends only on the flags. -/
theorem typeIsSet_congr (t : OutputType) (s1 s2 : BitcoinTool)
    (h : sameFlags s1 s2) : typeIsSet s1 t = typeIsSet s2 t := by
  obtain ⟨h1, h2, h3, h4, h5, h6⟩ := h
  cases t <;> simp [typeIsSet, h1, h2, h3, h4, h5, h6]

/-- For the text formats (everything except raw), the result, the bytes
written to standard output and the trace of a single write depend only on
the source buffers. -/
theorem writeOutputSingle_congr (caps : Capabilities) (isTty : Bool)
    (t : OutputType) (f : OutputFormat) (s1 s2 : BitcoinTool)
    (hs : sameSource s1 s2) (hf : f ≠ OutputFormat.raw) :
    (Bitcoin_WriteOutputSingle caps isTty t f s1).1 =
      (Bitcoin_WriteOutputSingle caps isTty t f s2).1 ∧
    (Bitcoin_WriteOutputSingle caps isTty t f s1).2.2.1 =
      (Bitcoin_WriteOutputSingle caps isTty t f s2).2.2.1 ∧
    (Bitcoin_WriteOutputSingle caps isTty t f s1).2.2.2 =
      (Bitcoin_WriteOutputSingle caps isTty t f s2).2.2.2 := by
  have hcr := computeOutputRaw_congr t s1 s2 hs
  unfold Bitcoin_WriteOutputSingle
  rw [hcr]
  cases hc : computeOutputRaw t s2 with
  | none => exact ⟨rfl, rfl, rfl⟩
  | some raw =>
    cases f with
    | raw => exact absurd rfl hf
    | none => simp [encodeOutput]
    | hex =>
      by_cases hr : (caps.encodeHex raw).1 = BitcoinResult.success <;>
        simp [encodeOutput, hr]
    | base58 =>
      by_cases hr : (caps.encodeBase58 raw).1 = BitcoinResult.success <;>
        simp [encodeOutput, hr]
    | base58check =>
      by_cases hr : (caps.encodeBase58Check raw).1 = BitcoinResult.success <;>
        simp [encodeOutput, hr]

theorem sameFlags_trans {a b c : BitcoinTool} (h : sameFlags a b)
    (g : sameFlags b c) : sameFlags a c := by
  obtain ⟨h1, h2, h3, h4, h5, h6⟩ := h
  obtain ⟨g1, g2, g3, g4, g5, g6⟩ := g
  exact ⟨h1.trans g1, h2.trans g2, h3.trans g3, h4.trans g4, h5.trans g5, h6.trans g6⟩

theorem sameSource_trans {a b c : BitcoinTool} (h : sameSource a b)
    (g : sameSource b c) : sameSource a c := by
  obtain ⟨h1, h2, h3, h4, h5, h6⟩ := h
  obtain ⟨g1, g2, g3, g4, g5, g6⟩ := g
  exact ⟨h1.trans g1, h2.trans g2, h3.trans g3, h4.trans g4, h5.trans g5, h6.trans g6⟩

/-- The "all" lines one type contributes, computed against a fixed
reference state: one `"<type>.<format>:<bytes written>"` entry per entry
of the format table. -/
def entriesForType (caps : Capabilities) (isTty : Bool) (s0 : BitcoinTool)
    (t : OutputType) (tname : String) : List String :=
  allOutputFormats.map (fun q =>
    tname ++ "." ++ q.2 ++ ":" ++ (Bitcoin_WriteOutputSingle caps isTty t q.1 s0).2.2.1)

/-- The full "all" listing computed against a fixed reference state: the
set types of the given type table, in table order, each crossed with the
format table. -/
def expectedEntriesFrom (caps : Capabilities) (isTty : Bool) (s0 : BitcoinTool) :
    List (OutputType × String) → List String
  | [] => []
  | p :: rest =>
      (if typeIsSet s0 p.1 then entriesForType caps isTty s0 p.1 p.2 else []) ++
        expectedEntriesFrom caps isTty s0 rest

theorem writeAllStep_spec (caps : Capabilities) (isTty : Bool) (t : OutputType)
    (tname : String) (acc : BitcoinTool × List String × Trace)
    (p : OutputFormat × String) (s0 : BitcoinTool) (hp : p.1 ≠ OutputFormat.raw)
    (hfl : sameFlags acc.1 s0) (hsrc : sameSource acc.1 s0) :
    (writeAllStep caps isTty t tname acc p).2.1 =
      acc.2.1 ++ (if typeIsSet s0 t then
        [tname ++ "." ++ p.2 ++ ":" ++ (Bitcoin_WriteOutputSingle caps isTty t p.1 s0).2.2.1]
        else []) ∧
    sameFlags (writeAllStep caps isTty t tname acc p).1 s0 ∧
    sameSource (writeAllStep caps isTty t tname acc p).1 s0 := by
  have hset : typeIsSet acc.1 t = typeIsSet s0 t := typeIsSet_congr t acc.1 s0 hfl
  have hpres := writeOutputSingle_preserves caps isTty t p.1 acc.1
  have hcongr := writeOutputSingle_congr caps isTty t p.1 acc.1 s0 hsrc hp
  by_cases h : typeIsSet s0 t = true
  · have hs : typeIsSet acc.1 t = true := hset.trans h
    unfold writeAllStep
    simp only [hs, h, if_true]
    exact ⟨by rw [hcongr.2.1], sameFlags_trans hpres.1 hfl,
      sameSource_trans hpres.2 hsrc⟩
  · have hf : typeIsSet s0 t = false := by simpa using h
    have hs : typeIsSet acc.1 t = false := hset.trans hf
    unfold writeAllStep
    simp only [hs, hf, Bool.false_eq_true, if_false, List.append_nil]
    exact ⟨trivial, hfl, hsrc⟩

theorem writeAllFormats_spec (caps : Capabilities) (isTty : Bool)
    (t : OutputType) (tname : String) (acc : BitcoinTool × List String × Trace)
    (s0 : BitcoinTool) (hfl : sameFlags acc.1 s0) (hsrc : sameSource acc.1 s0) :
    (writeAllFormats caps isTty t tname acc).2.1 =
      acc.2.1 ++ (if typeIsSet s0 t then entriesForType caps isTty s0 t tname else []) ∧
    sameFlags (writeAllFormats caps isTty t tname acc).1 s0 ∧
    sameSource (writeAllFormats caps isTty t tname acc).1 s0 := by
  obtain ⟨e1, f1, g1⟩ := writeAllStep_spec caps isTty t tname acc
    (OutputFormat.hex, "hex") s0 (by simp) hfl hsrc
  obtain ⟨e2, f2, g2⟩ := writeAllStep_spec caps isTty t tname
    (writeAllStep caps isTty t tname acc (OutputFormat.hex, "hex"))
    (OutputFormat.base58, "base58") s0 (by simp) f1 g1
  obtain ⟨e3, f3, g3⟩ := writeAllStep_spec caps isTty t tname
    (writeAllStep caps isTty t tname
      (writeAllStep caps isTty t tname acc (OutputFormat.hex, "hex"))
      (OutputFormat.base58, "base58"))
    (OutputFormat.base58check, "base58check") s0 (by simp) f2 g2
  unfold writeAllFormats allOutputFormats
  simp only [List.foldl]
  refine ⟨?_, f3, g3⟩
  rw [e3, e2, e1]
  by_cases h : typeIsSet s0 t <;>
    simp [h, entriesForType, allOutputFormats, List.append_assoc]

theorem writeAllTypes_spec (caps : Capabilities) (isTty : Bool)
    (s0 : BitcoinTool) : ∀ (L : List (OutputType × String))
    (acc : BitcoinTool × List String × Trace),
    sameFlags acc.1 s0 → sameSource acc.1 s0 →
    (L.foldl (fun a p => writeAllFormats caps isTty p.1 p.2 a) acc).2.1 =
      acc.2.1 ++ expectedEntriesFrom caps isTty s0 L ∧
    sameFlags (L.foldl (fun a p => writeAllFormats caps isTty p.1 p.2 a) acc).1 s0 ∧
    sameSource (L.foldl (fun a p => writeAllFormats caps isTty p.1 p.2 a) acc).1 s0 := by
  intro L
  induction L with
  | nil =>
    intro acc hfl hsrc
    refine ⟨?_, hfl, hsrc⟩
    simp [expectedEntriesFrom]
  | cons p rest ih =>
    intro acc hfl hsrc
    obtain ⟨e1, f1, g1⟩ := writeAllFormats_spec caps isTty p.1 p.2 acc s0 hfl hsrc
    obtain ⟨e2, f2, g2⟩ := ih (writeAllFormats caps isTty p.1 p.2 acc) f1 g1
    simp only [List.foldl]
    refine ⟨?_, f2, g2⟩
    rw [e2, e1, expectedEntriesFrom, List.append_assoc]

/-- The complete listing of `Bitcoin_WriteAllOutput` equals the stateless
enumeration against the starting state: the in-loop state mutation never
reaches the buffers or flags the emission reads. -/
theorem writeAll_entries_eq (caps : Capabilities) (isTty : Bool)
    (s : BitcoinTool) : (Bitcoin_WriteAllOutput caps isTty s).2.2.1 =
      expectedEntriesFrom caps isTty s allOutputTypes := by
  have h := writeAllTypes_spec caps isTty s allOutputTypes (s, [], [])
    (sameFlags_refl s) (sameSource_refl s)
  unfold Bitcoin_WriteAllOutput
  simpa using h.1

/-- Eighteen lines when all six types are set: six table types, three
formats each. -/
theorem expectedEntriesFrom_length_all (caps : Capabilities) (isTty : Bool)
    (s0 : BitcoinTool) (h : allFlagsSet s0) :
    (expectedEntriesFrom caps isTty s0 allOutputTypes).length = 18 := by
  obtain ⟨h1, h2, h3, h4, h5, h6⟩ := h
  simp [expectedEntriesFrom, allOutputTypes, entriesForType, allOutputFormats,
    typeIsSet, h1, h2, h3, h4, h5, h6]

theorem acquireInput_compression (opts : BitcoinToolOptions) (s : BitcoinTool) :
    (acquireInput opts s).2.privateKeyCompression = s.privateKeyCompression := by
  simp only [acquireInput]
  repeat' split
  all_goals simp

theorem decodeInput_compression (caps : Capabilities) (fmt : InputFormat)
    (s : BitcoinTool) :
    (decodeInput caps fmt s).2.privateKeyCompression = s.privateKeyCompression := by
  cases fmt with
  | raw => rfl
  | none => rfl
  | hex =>
    by_cases h : (caps.decodeHex s.input).1 = BitcoinResult.success <;>
      simp [decodeInput, h]
  | base58 =>
    by_cases h : (caps.decodeBase58 s.input).1 = BitcoinResult.success <;>
      simp [decodeInput, h]
  | base58check =>
    by_cases h : (caps.decodeBase58Check s.input).1 = BitcoinResult.success <;>
      simp [decodeInput, h]

theorem parseInput_compression (caps : Capabilities) (opts : BitcoinToolOptions)
    (s0 : BitcoinTool) :
    (Bitcoin_ParseInput caps opts s0).2.privateKeyCompression =
      s0.privateKeyCompression := by
  have h1 := acquireInput_compression opts { s0 with outputTextSize := 256 }
  have h2 := decodeInput_compression caps opts.inputFormat
    (acquireInput opts { s0 with outputTextSize := 256 }).2
  simp only [Bitcoin_ParseInput]
  by_cases ha : (acquireInput opts { s0 with outputTextSize := 256 }).1 =
      BitcoinResult.success
  · by_cases hz : (acquireInput opts { s0 with outputTextSize := 256 }).2.inputSize = 0
    · simpa [ha, hz] using h1
    · simp only [ha, hz, if_true, if_false]
      rw [h2] at *
      simpa [ha, hz] using h1
  · simpa [ha] using h1

/-- Decoding the input format touches only `input_raw`; the acquired
input bytes and their size survive. -/
theorem decodeInput_input (caps : Capabilities) (fmt : InputFormat)
    (s : BitcoinTool) :
    (decodeInput caps fmt s).2.input = s.input ∧
    (decodeInput caps fmt s).2.inputSize = s.inputSize := by
  cases fmt with
  | raw => exact ⟨rfl, rfl⟩
  | none => exact ⟨rfl, rfl⟩
  | hex =>
    by_cases h : (caps.decodeHex s.input).1 = BitcoinResult.success <;>
      simp [decodeInput, h]
  | base58 =>
    by_cases h : (caps.decodeBase58 s.input).1 = BitcoinResult.success <;>
      simp [decodeInput, h]
  | base58check =>
    by_cases h : (caps.decodeBase58Check s.input).1 = BitcoinResult.success <;>
      simp [decodeInput, h]

/-- For a declared private-key input, size validation never touches the
compression tag (both the accepting and the rejecting branch). -/
theorem checkInputSize_compression_privateKey (opts : BitcoinToolOptions)
    (s : BitcoinTool) (hIn : opts.inputType = InputType.privateKey) :
    (Bitcoin_CheckInputSize opts s).2.1.privateKeyCompression =
      s.privateKeyCompression := by
  by_cases h : s.inputRawSize = BITCOIN_PRIVATE_KEY_SIZE <;>
    simp [Bitcoin_CheckInputSize, hIn, h]

/-- For every input type other than PrivateKeyWIF, size validation never
touches the compression tag: the decoded WIF length is the only channel
that writes it. -/
theorem checkInputSize_compression_nonwif (opts : BitcoinToolOptions)
    (s : BitcoinTool) (hne : opts.inputType ≠ InputType.privateKeyWif) :
    (Bitcoin_CheckInputSize opts s).2.1.privateKeyCompression =
      s.privateKeyCompression := by
  cases hIT : opts.inputType with
  | privateKeyWif => exact absurd hIT hne
  | none => simp [Bitcoin_CheckInputSize, hIT]
  | privateKey =>
    by_cases h : s.inputRawSize = BITCOIN_PRIVATE_KEY_SIZE <;>
      simp [Bitcoin_CheckInputSize, hIT, h]
  | publicKey =>
    by_cases h : s.inputRawSize = BITCOIN_PUBLIC_KEY_UNCOMPRESSED_SIZE ∨
        s.inputRawSize = BITCOIN_PUBLIC_KEY_COMPRESSED_SIZE <;>
      simp [Bitcoin_CheckInputSize, hIT, h]
  | publicKeySha256 =>
    by_cases h : s.inputRawSize = BITCOIN_SHA256_SIZE <;>
      simp [Bitcoin_CheckInputSize, hIT, h]
  | publicKeyRipemd160 =>
    by_cases h : s.inputRawSize = BITCOIN_RIPEMD160_SIZE <;>
      simp [Bitcoin_CheckInputSize, hIT, h]
  | address =>
    by_cases h : s.inputRawSize = BITCOIN_ADDRESS_SIZE <;>
      simp [Bitcoin_CheckInputSize, hIT, h]

/-! Concrete option sets and states for the closed witness and
counterexample theorems. -/

/-- Raw public-key input (65 bytes), private-key output requested. -/
def demoOptsPublicKey : BitcoinToolOptions :=
  ⟨some (List.replicate 65 4), none, InputType.publicKey, InputFormat.raw,
   OutputType.privateKey, OutputFormat.hex, PublicKeyCompression.auto⟩

/-- Raw WIF input, automatic compression resolution. -/
def demoOptsWifAuto : BitcoinToolOptions :=
  ⟨some (List.replicate 34 1), none, InputType.privateKeyWif, InputFormat.raw,
   OutputType.address, OutputFormat.hex, PublicKeyCompression.auto⟩

/-- Raw WIF input of compressed length with an explicit uncompressed
override. -/
def demoOptsWifOverride : BitcoinToolOptions :=
  ⟨some (List.replicate 34 1), none, InputType.privateKeyWif, InputFormat.raw,
   OutputType.address, OutputFormat.hex, PublicKeyCompression.uncompressed⟩

/-- Raw 32-byte private-key input under automatic compression. -/
def demoOptsPrivRawAuto : BitcoinToolOptions :=
  ⟨some (List.replicate 32 3), none, InputType.privateKey, InputFormat.raw,
   OutputType.privateKeyWif, OutputFormat.hex, PublicKeyCompression.auto⟩

/-- Raw 32-byte private-key input requesting the "all" listing. -/
def demoOptsPrivAll : BitcoinToolOptions :=
  ⟨some (List.replicate 32 3), none, InputType.privateKey, InputFormat.raw,
   OutputType.all, OutputFormat.hex, PublicKeyCompression.auto⟩

/-- Private-key input whose raw value has WIF length 33. -/
def demoOptsPriv33 : BitcoinToolOptions :=
  ⟨some (List.replicate 33 2), none, InputType.privateKey, InputFormat.raw,
   OutputType.address, OutputFormat.hex, PublicKeyCompression.auto⟩

/-- A 300-byte input file: larger than the 256-byte input buffer. -/
def demoOptsFile300 : BitcoinToolOptions :=
  ⟨none, some (List.replicate 300 65), InputType.privateKey, InputFormat.raw,
   OutputType.address, OutputFormat.hex, PublicKeyCompression.auto⟩

/-- A 256-byte `--input` value: too large for the input buffer. -/
def demoOptsInput256 : BitcoinToolOptions :=
  ⟨some (List.replicate 256 65), none, InputType.privateKey, InputFormat.raw,
   OutputType.address, OutputFormat.hex, PublicKeyCompression.auto⟩

/-- A state whose address representation alone is set. -/
def demoStateAddr : BitcoinTool :=
  { initialBitcoinTool with address := List.replicate 21 1, addressSet := true }

/-- A state carrying a decoded 34-byte raw input. -/
def demoState34 : BitcoinTool :=
  { initialBitcoinTool with inputRaw := List.replicate 34 1, inputRawSize := 34 }

/-- A state carrying a decoded 33-byte raw input. -/
def demoState33 : BitcoinTool :=
  { initialBitcoinTool with inputRaw := List.replicate 33 2, inputRawSize := 33 }

/-- A state holding a 32-byte private key. -/
def demoState32 : BitcoinTool :=
  { initialBitcoinTool with privateKey := List.replicate 32 3, privateKeySet := true }

/-! Claim theorems. -/

/-- C9: after a successful single write, the bytes sent to standard output
are exactly the bytes of the same write with a non-terminal standard input
followed by one extra newline when standard input is an interactive
terminal, and followed by nothing otherwise: the trailing newline is
appended if and only if standard input is a terminal. -/
theorem C9_trailing_newline_iff_tty (caps : Capabilities) (isTty : Bool)
    (t : OutputType) (f : OutputFormat) (s : BitcoinTool)
    (h : (Bitcoin_WriteOutputSingle caps isTty t f s).1 = BitcoinResult.success) :
    (Bitcoin_WriteOutputSingle caps isTty t f s).2.2.1 =
      (Bitcoin_WriteOutputSingle caps false t f s).2.2.1 ++
        (if isTty then "\n" else "") := by
  cases hc : computeOutputRaw t s with
  | none =>
    exfalso
    simp [Bitcoin_WriteOutputSingle, hc] at h
  | some raw =>
    by_cases hr : (encodeOutput caps f raw).1 = BitcoinResult.success
    · simp only [Bitcoin_WriteOutputSingle, hc, hr, if_true, Bool.false_eq_true,
        if_false, string_append_empty]
    · exfalso
      simp [Bitcoin_WriteOutputSingle, hc, hr] at h

/-- C9 witness: a concrete successful hex write of the address type. -/
theorem C9_witness :
    (Bitcoin_WriteOutputSingle demoCaps true OutputType.address OutputFormat.hex
      initialBitcoinTool).1 = BitcoinResult.success ∧
    (Bitcoin_WriteOutputSingle demoCaps true OutputType.address OutputFormat.hex
      initialBitcoinTool).2.2.1 =
      (Bitcoin_WriteOutputSingle demoCaps false OutputType.address OutputFormat.hex
        initialBitcoinTool).2.2.1 ++ (if true then "\n" else "") :=
  ⟨by decide, C9_trailing_newline_iff_tty demoCaps true OutputType.address
    OutputFormat.hex initialBitcoinTool (by decide)⟩

/-- C10: an explicit `--public-key-compression` value of compressed or
uncompressed determines the compression tag of the state conversion starts
from, in the run pipeline order parse, size validation (which resolves
Auto from a WIF length), then override: the explicit flag wins over
whatever validation resolved. -/
theorem C10_explicit_compression_overrides (caps : Capabilities)
    (opts : BitcoinToolOptions) (s : BitcoinTool) :
    (opts.publicKeyCompression = PublicKeyCompression.compressed →
      (applyCompressionOverride opts
        (Bitcoin_CheckInputSize opts
          (Bitcoin_ParseInput caps opts s).2).2.1).privateKeyCompression =
        KeyCompression.compressed) ∧
    (opts.publicKeyCompression = PublicKeyCompression.uncompressed →
      (applyCompressionOverride opts
        (Bitcoin_CheckInputSize opts
          (Bitcoin_ParseInput caps opts s).2).2.1).privateKeyCompression =
        KeyCompression.uncompressed) := by
  constructor <;> intro h <;> simp [applyCompressionOverride, h]

/-- C10 witness: a WIF input of compressed length (34) with an explicit
uncompressed override ends with the uncompressed tag. -/
theorem C10_witness :
    demoOptsWifOverride.publicKeyCompression = PublicKeyCompression.uncompressed ∧
    (applyCompressionOverride demoOptsWifOverride
      (Bitcoin_CheckInputSize demoOptsWifOverride
        (Bitcoin_ParseInput demoCaps demoOptsWifOverride
          initialBitcoinTool).2).2.1).privateKeyCompression =
      KeyCompression.uncompressed :=
  ⟨rfl, (C10_explicit_compression_overrides demoCaps demoOptsWifOverride
    initialBitcoinTool).2 rfl⟩

/-- C4: for a PrivateKeyWIF input under the Auto compression mode, a
decoded raw length of 34 bytes validates successfully and resolves the
effective mode to Compressed, a length of 33 bytes resolves it to
Uncompressed; and for every other input type the validation and override
steps leave the compression tag untouched under Auto, so the decoded WIF
length is the only channel through which Auto is resolved. -/
theorem C4_wif_length_resolves_auto (opts : BitcoinToolOptions)
    (s : BitcoinTool)
    (hAuto : opts.publicKeyCompression = PublicKeyCompression.auto) :
    (opts.inputType = InputType.privateKeyWif →
      (s.inputRawSize = 34 →
        (Bitcoin_CheckInputSize opts s).1 = BitcoinResult.success ∧
        (applyCompressionOverride opts
          (Bitcoin_CheckInputSize opts s).2.1).privateKeyCompression =
          KeyCompression.compressed) ∧
      (s.inputRawSize = 33 →
        (Bitcoin_CheckInputSize opts s).1 = BitcoinResult.success ∧
        (applyCompressionOverride opts
          (Bitcoin_CheckInputSize opts s).2.1).privateKeyCompression =
          KeyCompression.uncompressed)) ∧
    (opts.inputType ≠ InputType.privateKeyWif →
      (applyCompressionOverride opts
        (Bitcoin_CheckInputSize opts s).2.1).privateKeyCompression =
        s.privateKeyCompression) := by
  refine ⟨fun hIn => ⟨fun h34 => ?_, fun h33 => ?_⟩, fun hne => ?_⟩
  · constructor <;>
      simp [Bitcoin_CheckInputSize, hIn, h34, applyCompressionOverride, hAuto,
        BITCOIN_PRIVATE_KEY_WIF_UNCOMPRESSED_SIZE,
        BITCOIN_PRIVATE_KEY_WIF_COMPRESSED_SIZE]
  · constructor <;>
      simp [Bitcoin_CheckInputSize, hIn, h33, applyCompressionOverride, hAuto,
        BITCOIN_PRIVATE_KEY_WIF_UNCOMPRESSED_SIZE,
        BITCOIN_PRIVATE_KEY_WIF_COMPRESSED_SIZE]
  · have hc := checkInputSize_compression_nonwif opts s hne
    simp [applyCompressionOverride, hAuto, hc]

/-- C4 witness: automatic mode with a 34-byte decoded WIF resolves to
Compressed and validates. -/
theorem C4_witness :
    demoOptsWifAuto.publicKeyCompression = PublicKeyCompression.auto ∧
    demoOptsWifAuto.inputType = InputType.privateKeyWif ∧
    demoState34.inputRawSize = 34 ∧
    ((Bitcoin_CheckInputSize demoOptsWifAuto demoState34).1 =
        BitcoinResult.success ∧
      (applyCompressionOverride demoOptsWifAuto
        (Bitcoin_CheckInputSize demoOptsWifAuto
          demoState34).2.1).privateKeyCompression = KeyCompression.compressed) :=
  ⟨rfl, rfl, rfl,
    ((C4_wif_length_resolves_auto demoOptsWifAuto demoState34 rfl).1 rfl).1 rfl⟩

/-- C7: a PrivateKey input supplied raw or hex with the compression flag
left at Auto reaches conversion with the Uncompressed tag: the initial
tag is Uncompressed, parsing and private-key size validation never touch
it, and the Auto override keeps it.  This tag is what WIF encoding and
public-key derivation read. -/
theorem C7_raw_hex_auto_uncompressed (caps : Capabilities)
    (opts : BitcoinToolOptions)
    (hIn : opts.inputType = InputType.privateKey)
    (hAuto : opts.publicKeyCompression = PublicKeyCompression.auto)
    (hFmt : opts.inputFormat = InputFormat.raw ∨
      opts.inputFormat = InputFormat.hex) :
    (applyCompressionOverride opts
      (Bitcoin_CheckInputSize opts
        (Bitcoin_ParseInput caps opts initialBitcoinTool).2).2.1).privateKeyCompression =
      KeyCompression.uncompressed := by
  have h1 := parseInput_compression caps opts initialBitcoinTool
  have h2 := checkInputSize_compression_privateKey opts
    (Bitcoin_ParseInput caps opts initialBitcoinTool).2 hIn
  simp only [applyCompressionOverride, hAuto]
  rw [h2, h1]
  rfl

/-- C7 witness: a raw 32-byte private key under Auto. -/
theorem C7_witness :
    demoOptsPrivRawAuto.inputType = InputType.privateKey ∧
    demoOptsPrivRawAuto.publicKeyCompression = PublicKeyCompression.auto ∧
    demoOptsPrivRawAuto.inputFormat = InputFormat.raw ∧
    (applyCompressionOverride demoOptsPrivRawAuto
      (Bitcoin_CheckInputSize demoOptsPrivRawAuto
        (Bitcoin_ParseInput demoCaps demoOptsPrivRawAuto
          initialBitcoinTool).2).2.1).privateKeyCompression =
      KeyCompression.uncompressed :=
  ⟨rfl, rfl, rfl, C7_raw_hex_auto_uncompressed demoCaps demoOptsPrivRawAuto
    rfl rfl (Or.inl rfl)⟩

/-- C2: a PublicKey input with a requested PrivateKey or PrivateKeyWIF
output is rejected by the conversion engine as an impossible conversion
with an empty capability trace (no hash, EC-derivation or encode call),
and the full run writes nothing to standard output and invokes no such
capability either. -/
theorem C2_public_key_to_private_impossible (caps : Capabilities)
    (isTty : Bool) (opts : BitcoinToolOptions) (s : BitcoinTool)
    (hIn : opts.inputType = InputType.publicKey)
    (hOut : opts.outputType = OutputType.privateKey ∨
      opts.outputType = OutputType.privateKeyWif) :
    (Bitcoin_ConvertInputToOutput caps opts s).1 =
      BitcoinResult.impossibleConversion ∧
    (Bitcoin_ConvertInputToOutput caps opts s).2.2 = [] ∧
    (BitcoinTool_run caps isTty opts).2.1 = "" ∧
    (BitcoinTool_run caps isTty opts).2.2 = [] := by
  have hcv : ∀ u : BitcoinTool, Bitcoin_ConvertInputToOutput caps opts u =
      (BitcoinResult.impossibleConversion, u, []) := by
    intro u
    rcases hOut with h | h <;>
      simp [Bitcoin_ConvertInputToOutput, hIn, h, convBlockPublicKey,
        convSeq, convFinish]
  have hrun : (BitcoinTool_run caps isTty opts).2.1 = "" ∧
      (BitcoinTool_run caps isTty opts).2.2 = [] := by
    unfold BitcoinTool_run
    by_cases hp : (Bitcoin_ParseInput caps opts initialBitcoinTool).1 =
        BitcoinResult.success
    · by_cases hc : (Bitcoin_CheckInputSize opts
          (Bitcoin_ParseInput caps opts initialBitcoinTool).2).1 =
          BitcoinResult.success
      · simp [hp, hc, hcv]
      · simp [hp, hc]
    · simp [hp]
  exact ⟨by rw [hcv s], by rw [hcv s], hrun.1, hrun.2⟩

/-- C2 witness: a concrete 65-byte raw public key with private-key output
requested. -/
theorem C2_witness :
    demoOptsPublicKey.inputType = InputType.publicKey ∧
    (demoOptsPublicKey.outputType = OutputType.privateKey ∨
      demoOptsPublicKey.outputType = OutputType.privateKeyWif) ∧
    ((Bitcoin_ConvertInputToOutput demoCaps demoOptsPublicKey
        initialBitcoinTool).1 = BitcoinResult.impossibleConversion ∧
      (Bitcoin_ConvertInputToOutput demoCaps demoOptsPublicKey
        initialBitcoinTool).2.2 = [] ∧
      (BitcoinTool_run demoCaps false demoOptsPublicKey).2.1 = "" ∧
      (BitcoinTool_run demoCaps false demoOptsPublicKey).2.2 = []) :=
  ⟨rfl, Or.inl rfl, C2_public_key_to_private_impossible demoCaps false
    demoOptsPublicKey initialBitcoinTool rfl (Or.inl rfl)⟩

/-- C8: a PrivateKey input whose decoded raw length is not 32 bytes fails
validation with the private-key-specific error; the diagnostic WIF hint
accompanies the error exactly when the length is a WIF raw length (33 or
34); and the process exits with code 1. -/
theorem C8_private_key_size_mismatch (caps : Capabilities) (isTty : Bool)
    (opts : BitcoinToolOptions) (s : BitcoinTool)
    (hIn : opts.inputType = InputType.privateKey)
    (hSz : s.inputRawSize ≠ 32)
    (hRun : (Bitcoin_ParseInput caps opts initialBitcoinTool).2.inputRawSize ≠ 32) :
    (Bitcoin_CheckInputSize opts s).1 = BitcoinResult.privateKeyInvalidFormat ∧
    ((Bitcoin_CheckInputSize opts s).2.2 = true ↔
      (s.inputRawSize = 33 ∨ s.inputRawSize = 34)) ∧
    bitcoinToolMain caps isTty opts = 1 := by
  refine ⟨?_, ?_, ?_⟩
  · simp [Bitcoin_CheckInputSize, hIn, BITCOIN_PRIVATE_KEY_SIZE, hSz]
  · simp [Bitcoin_CheckInputSize, hIn, BITCOIN_PRIVATE_KEY_SIZE, hSz,
      BITCOIN_PRIVATE_KEY_WIF_UNCOMPRESSED_SIZE,
      BITCOIN_PRIVATE_KEY_WIF_COMPRESSED_SIZE]
  · unfold bitcoinToolMain BitcoinTool_run
    by_cases hp : (Bitcoin_ParseInput caps opts initialBitcoinTool).1 =
        BitcoinResult.success
    · have hcheck : (Bitcoin_CheckInputSize opts
          (Bitcoin_ParseInput caps opts initialBitcoinTool).2).1 =
          BitcoinResult.privateKeyInvalidFormat := by
        simp [Bitcoin_CheckInputSize, hIn, BITCOIN_PRIVATE_KEY_SIZE, hRun]
      simp [hp, hcheck]
    · simp [hp]

/-- C8 witness: a 33-byte decoded private-key input carries the WIF hint
and the run exits 1. -/
theorem C8_witness :
    demoOptsPriv33.inputType = InputType.privateKey ∧
    demoState33.inputRawSize ≠ 32 ∧
    (Bitcoin_ParseInput demoCaps demoOptsPriv33 initialBitcoinTool).2.inputRawSize ≠ 32 ∧
    ((Bitcoin_CheckInputSize demoOptsPriv33 demoState33).1 =
        BitcoinResult.privateKeyInvalidFormat ∧
      ((Bitcoin_CheckInputSize demoOptsPriv33 demoState33).2.2 = true ↔
        (demoState33.inputRawSize = 33 ∨ demoState33.inputRawSize = 34)) ∧
      bitcoinToolMain demoCaps false demoOptsPriv33 = 1) :=
  ⟨rfl, by decide, by decide, C8_private_key_size_mismatch demoCaps false
    demoOptsPriv33 demoState33 rfl (by decide) (by decide)⟩

/-- C1 counterexample: with a base58 encoder that fails, the "all"
dispatch on a state whose address type is set does not abort: the failing
(address, base58) pair leaves only its tag, the following
(address, base58check) pair is still emitted, and the dispatcher reports
success — refuting the claim that any encode failure aborts the whole
dispatch with that error and stops further pairs. -/
theorem C1_counterexample :
    (Bitcoin_WriteAllOutput failingBase58Caps false demoStateAddr).1 =
      BitcoinResult.success ∧
    (Bitcoin_WriteAllOutput failingBase58Caps false demoStateAddr).2.2.1 =
      ["address.hex:xx", "address.base58:", "address.base58check:zz"] := by
  constructor
  · rfl
  · decide

/-- C1 amended: an encode failure does not abort the "all" dispatch —
`Bitcoin_WriteAllOutput` discards the inner write results and reports
success unconditionally, continuing through the remaining pairs (the
failing pair contributes its tag with no encoded text). -/
theorem C1_amended_no_abort (caps : Capabilities) (isTty : Bool)
    (s : BitcoinTool) :
    (Bitcoin_WriteAllOutput caps isTty s).1 = BitcoinResult.success := rfl

/-- C5 counterexample: a 300-byte input file exceeds the 256-byte input
buffer, yet `Bitcoin_ParseInput` succeeds and the state carries only the
first 255 bytes — the input is silently truncated before validation
instead of failing with a validation error. -/
theorem C5_counterexample :
    (Bitcoin_ParseInput demoCaps demoOptsFile300 initialBitcoinTool).1 =
      BitcoinResult.success ∧
    (Bitcoin_ParseInput demoCaps demoOptsFile300 initialBitcoinTool).2.inputSize = 255 ∧
    (Bitcoin_ParseInput demoCaps demoOptsFile300 initialBitcoinTool).2.inputRaw =
      List.replicate 255 65 := by
  refine ⟨by decide, by decide, by decide⟩

/-- C5 amended: only the `--input` channel enforces the buffer capacity —
a value of 256 bytes or more fails before anything is copied; the
`--input-file` channel instead reads at most 255 bytes, so an oversized
file is silently cut to its first 255 bytes, which are what validation
then sees. -/
theorem C5_amended_input_checked_file_truncated (caps : Capabilities)
    (opts : BitcoinToolOptions) (s : BitcoinTool) (bytes fileBytes : List Nat) :
    (opts.inputFile = none → opts.input = some bytes → 256 ≤ bytes.length →
      (Bitcoin_ParseInput caps opts s).1 = BitcoinResult.acquisitionFailure) ∧
    (opts.inputFile = some fileBytes → 255 < fileBytes.length →
      (Bitcoin_ParseInput caps opts initialBitcoinTool).2.input =
        fileBytes.take 255 ∧
      (Bitcoin_ParseInput caps opts initialBitcoinTool).2.inputSize = 255) := by
  constructor
  · intro hf hi hlen
    have ha : acquireInput opts { s with outputTextSize := 256 } =
        (BitcoinResult.acquisitionFailure,
          { { s with outputTextSize := 256 } with inputSize := bytes.length }) := by
      simp [acquireInput, hf, hi, hlen]
    simp [Bitcoin_ParseInput, ha]
  · intro hfile hlarge
    have hlen : (fileBytes.take 255).length = 255 := by
      rw [List.length_take]
      omega
    have hnil : ¬fileBytes = [] := by
      intro h
      rw [h] at hlarge
      simp at hlarge
    have ha : acquireInput opts { initialBitcoinTool with outputTextSize := 256 } =
        (BitcoinResult.success,
          { initialBitcoinTool with
            outputTextSize := 256,
            input := fileBytes.take 255,
            inputSize := (fileBytes.take 255).length }) := by
      simp [acquireInput, hfile, hnil]
    have hparse : Bitcoin_ParseInput caps opts initialBitcoinTool =
        decodeInput caps opts.inputFormat
          { initialBitcoinTool with
            outputTextSize := 256,
            input := fileBytes.take 255,
            inputSize := (fileBytes.take 255).length } := by
      have hzero : ¬((List.take 255 fileBytes).length = 0) := by
        rw [hlen]
        omega
      simp only [Bitcoin_ParseInput, ha]
      rw [if_pos trivial, if_neg hzero]
    have hd := decodeInput_input caps opts.inputFormat
      { initialBitcoinTool with
        outputTextSize := 256,
        input := fileBytes.take 255,
        inputSize := (fileBytes.take 255).length }
    constructor
    · rw [hparse, hd.1]
    · rw [hparse, hd.2]
      exact hlen

/-- C5 amended witness: a 256-byte `--input` value is rejected; a 300-byte
input file is read as its first 255 bytes. -/
theorem C5_amended_witness :
    (demoOptsInput256.inputFile = none ∧
      demoOptsInput256.input = some (List.replicate 256 65) ∧
      256 ≤ (List.replicate 256 65).length ∧
      (Bitcoin_ParseInput demoCaps demoOptsInput256 initialBitcoinTool).1 =
        BitcoinResult.acquisitionFailure) ∧
    (demoOptsFile300.inputFile = some (List.replicate 300 65) ∧
      255 < (List.replicate 300 65).length ∧
      (Bitcoin_ParseInput demoCaps demoOptsFile300 initialBitcoinTool).2.input =
        (List.replicate 300 65).take 255 ∧
      (Bitcoin_ParseInput demoCaps demoOptsFile300 initialBitcoinTool).2.inputSize = 255) :=
  ⟨⟨rfl, rfl, by decide,
    (C5_amended_input_checked_file_truncated demoCaps demoOptsInput256
      initialBitcoinTool (List.replicate 256 65) []).1 rfl rfl (by decide)⟩,
   ⟨rfl, by decide,
    ((C5_amended_input_checked_file_truncated demoCaps demoOptsFile300
      initialBitcoinTool [] (List.replicate 300 65)).2 rfl (by decide)).1,
    ((C5_amended_input_checked_file_truncated demoCaps demoOptsFile300
      initialBitcoinTool [] (List.replicate 300 65)).2 rfl (by decide)).2⟩⟩

/-- C3: a PrivateKey input with output-type "all" leaves every one of the
six representation flags set after the conversion pass (given the EC
derivation capability succeeds on the key; the two WIF conversion steps
and the hashes cannot fail), and the "all" dispatcher then emits exactly
18 entries: 6 types times 3 formats. -/
theorem C3_private_key_all_sets_all_emits_18 (caps : Capabilities)
    (isTty : Bool) (opts : BitcoinToolOptions) (s : BitcoinTool)
    (hIn : opts.inputType = InputType.privateKey)
    (hOut : opts.outputType = OutputType.all)
    (hEC : (caps.makePublicKey s.privateKey s.privateKeyCompression).1 =
      BitcoinResult.success) :
    (Bitcoin_ConvertInputToOutput caps opts s).1 = BitcoinResult.success ∧
    allFlagsSet (Bitcoin_ConvertInputToOutput caps opts s).2.1 ∧
    ((Bitcoin_WriteAllOutput caps isTty
      (Bitcoin_ConvertInputToOutput caps opts s).2.1).2.2.1).length = 18 := by
  have hconv : (Bitcoin_ConvertInputToOutput caps opts s).1 =
      BitcoinResult.success ∧
      allFlagsSet (Bitcoin_ConvertInputToOutput caps opts s).2.1 := by
    constructor <;>
      simp [Bitcoin_ConvertInputToOutput, hIn, hOut, convBlockPrivateKey,
        convBlockPrivateKeyWifA, convBlockPrivateKeyWifB, convBlockPublicKey,
        convBlockSha256, convBlockRipemd160, convBlockAddress, convSeq,
        convFinish, hEC, allFlagsSet]
  refine ⟨hconv.1, hconv.2, ?_⟩
  rw [writeAll_entries_eq]
  exact expectedEntriesFrom_length_all caps isTty _ hconv.2

/-- C3 witness: a concrete raw 32-byte key with the demo capabilities. -/
theorem C3_witness :
    demoOptsPrivAll.inputType = InputType.privateKey ∧
    demoOptsPrivAll.outputType = OutputType.all ∧
    (demoCaps.makePublicKey demoState32.privateKey
      demoState32.privateKeyCompression).1 = BitcoinResult.success ∧
    ((Bitcoin_ConvertInputToOutput demoCaps demoOptsPrivAll demoState32).1 =
        BitcoinResult.success ∧
      allFlagsSet (Bitcoin_ConvertInputToOutput demoCaps demoOptsPrivAll
        demoState32).2.1 ∧
      ((Bitcoin_WriteAllOutput demoCaps false
        (Bitcoin_ConvertInputToOutput demoCaps demoOptsPrivAll
          demoState32).2.1).2.2.1).length = 18) :=
  ⟨rfl, rfl, rfl, C3_private_key_all_sets_all_emits_18 demoCaps false
    demoOptsPrivAll demoState32 rfl rfl rfl⟩

/-- C6: the "all" dispatch emits exactly the currently-set representation
types crossed with the three text formats, in the fixed table orders —
types in the order of `allOutputTypes` (address, public-key-ripemd160,
public-key-sha256, public-key, private-key-wif, private-key), formats in
the order of `allOutputFormats` (hex, base58, base58check; raw excluded) —
and every entry is the `"<type-name>.<format-name>:"` tag followed by the
text the single write for that pair sends to standard output. -/
theorem C6_all_fanout_order_and_format (caps : Capabilities) (isTty : Bool)
    (s : BitcoinTool) :
    (Bitcoin_WriteAllOutput caps isTty s).2.2.1 =
      expectedEntriesFrom caps isTty s allOutputTypes :=
  writeAll_entries_eq caps isTty s

end BitcoinToolModel
